import Mathlib

/- A shallow embedding of the waste-wrangler scheduling program
   (src/waste_wrangler.py).  Timestamps are modelled as whole minutes
   since an epoch (an Int); calendar dates as whole days (an Int), with
   dayOf t = t / 1440.  A route of length L km takes L / 5 hours at
   5 kph, i.e. exactly 12 * L minutes, which is integral for every
   natural L, so durations are modelled exactly.  SQL result ordering on
   tie keys is unspecified; the embedding fixes the stable
   insertion-order refinement. -/

namespace WW

structure Route where
  rid : Int
  wastetype : String
  length : Nat
  deriving DecidableEq, Repr

structure TruckType where
  trucktype : String
  wastetype : String
  deriving DecidableEq, Repr

structure Truck where
  tid : Int
  trucktype : String
  capacity : Int
  deriving DecidableEq, Repr

structure Employee where
  eid : Int
  name : String
  hiredate : Int
  deriving DecidableEq, Repr

structure Driver where
  eid : Int
  trucktype : String
  deriving DecidableEq, Repr

structure Technician where
  eid : Int
  trucktype : String
  deriving DecidableEq, Repr

structure Facility where
  fid : Int
  wastetype : String
  deriving DecidableEq, Repr

structure Trip where
  rid : Int
  tid : Int
  ttime : Int
  volume : Option Int
  eid1 : Int
  eid2 : Int
  fid : Int
  deriving DecidableEq, Repr

structure Maintenance where
  tid : Int
  eid : Int
  mdate : Int
  deriving DecidableEq, Repr

structure DB where
  routes : List Route
  trucktypes : List TruckType
  trucks : List Truck
  employees : List Employee
  drivers : List Driver
  technicians : List Technician
  facilities : List Facility
  trips : List Trip
  maintenance : List Maintenance
  deriving DecidableEq, Repr

/-- Minutes-to-days: the calendar day of a minute timestamp (floor). -/
def dayOf (t : Int) : Int := t / 1440

/-- Minute of day of a timestamp. -/
def todOf (t : Int) : Int := t % 1440

/-- Stable insertion into a list sorted by the boolean relation le. -/
def insertLe {α : Type} (le : α → α → Bool) (a : α) : List α → List α
  | [] => [a]
  | b :: bs => if le a b then a :: b :: bs else b :: insertLe le a bs

/-- Stable insertion sort by a boolean relation, modelling ORDER BY. -/
def sortLe {α : Type} (le : α → α → Bool) (l : List α) : List α :=
  l.foldr (insertLe le) []

/-- The SQL standard OVERLAPS predicate on two endpoint pairs, as used by
the availability view: endpoints in each pair are reordered, each pair
denotes the half-open interval from its start unless the endpoints are
equal, in which case it denotes the single instant. -/
def overlapsSQL (s1 e1 s2 e2 : Int) : Bool :=
  let a1 := min s1 e1
  let b1 := max s1 e1
  let a2 := min s2 e2
  let b2 := max s2 e2
  decide (a1 = a2) || (decide (a2 < a1) && decide (a1 < b2)) ||
    (decide (a1 < a2) && decide (a2 < b1))

/-- Length of the first route with the given rid (0 if absent), the
fetchone lookup used by the program. -/
def lenOf (R : List Route) (rid : Int) : Nat :=
  match R.find? (fun r => decide (r.rid = rid)) with
  | some r => r.length
  | none => 0

/-- End minute of a trip: its start plus length / 5 hours of its route. -/
def tripEndT (R : List Route) (t : Trip) : Int :=
  t.ttime + 12 * (lenOf R t.rid : Int)

/-- Does a trip joined with its route overlap the buffered candidate
window, per the notAval view of schedule_trip: the window
(tstart - 30min, tend + 30min) OVERLAPS (ttime, ttime + length / 5 h). -/
def notAvalOverlap (R : List Route) (tstart tend : Int) (t : Trip) : Bool :=
  R.any (fun r => decide (r.rid = t.rid) &&
    overlapsSQL (tstart - 30) (tend + 30) t.ttime (t.ttime + 12 * (r.length : Int)))

/-- A truck is excluded from availableTrucks: some of its trips overlaps
the buffered window, or it has maintenance on the calendar day of tstart. -/
def truckExcluded (db : DB) (tstart tend : Int) (tid : Int) : Bool :=
  db.trips.any (fun t => decide (t.tid = tid) && notAvalOverlap db.routes tstart tend t) ||
    db.maintenance.any (fun m => decide (m.tid = tid) && decide (m.mdate = dayOf tstart))

/-- An employee is excluded from availableEmployees: they are eid1 or eid2
of some trip overlapping the buffered window. -/
def empExcluded (db : DB) (tstart tend : Int) (e : Int) : Bool :=
  db.trips.any (fun t => (decide (t.eid1 = e) || decide (t.eid2 = e)) &&
    notAvalOverlap db.routes tstart tend t)

/-- ORDER BY capacity DESC, tid for trucks. -/
def leTruck (t u : Truck) : Bool :=
  decide (u.capacity < t.capacity) || (decide (t.capacity = u.capacity) && decide (t.tid ≤ u.tid))

/-- A row of the driver-and-employee join used for driver selection. -/
structure ERow where
  eid : Int
  trucktype : String
  hiredate : Int
  deriving DecidableEq, Repr

/-- ORDER BY hiredate, eid for joined employee rows. -/
def leERow (r s : ERow) : Bool :=
  decide (r.hiredate < s.hiredate) || (decide (r.hiredate = s.hiredate) && decide (r.eid ≤ s.eid))

/-- ORDER BY fid for facilities. -/
def leFac (f g : Facility) : Bool := decide (f.fid ≤ g.fid)

/-- ORDER BY rid for (rid, length) pairs. -/
def leRidLen (p q : Int × Nat) : Bool := decide (p.1 ≤ q.1)

/-- The trip row inserted by the schedulers: volume null, driver ids
stored as (max, min). -/
def mkTrip (rid tid ttime e1 e2 fid : Int) : Trip :=
  ⟨rid, tid, ttime, none, max e1 e2, min e1 e2, fid⟩

/-- availableEmployees joined with employee, before ORDER BY. -/
def availERows (db : DB) (tstart tend : Int) : List ERow :=
  (db.drivers.filter (fun d => ! empExcluded db tstart tend d.eid)).flatMap
    (fun d => (db.employees.filter (fun emp => decide (emp.eid = d.eid))).map
      (fun emp => ⟨d.eid, d.trucktype, emp.hiredate⟩))

/-- Available trucks whose type carries the waste type of route rid. -/
def candTrucks (db : DB) (rid : Int) (tstart tend : Int) : List Truck :=
  (db.trucks.filter (fun t => ! truckExcluded db tstart tend t.tid)).filter
    (fun t => db.trucktypes.any (fun tt => decide (tt.trucktype = t.trucktype) &&
      db.routes.any (fun r => decide (r.rid = rid) && decide (r.wastetype = tt.wastetype))))

/-- Lowest fid of a facility accepting the waste type of route rid. -/
def bestFacilityForRid (db : DB) (rid : Int) : Option Int :=
  ((sortLe leFac (db.facilities.filter
      (fun f => db.routes.any (fun r => decide (r.rid = rid) && decide (r.wastetype = f.wastetype))))).head?).map
    (fun f => f.fid)

/-- Scan forward for the first row qualified for ttype and distinct from e1. -/
def scanSecond (ttype : String) (e1 : Int) : List ERow → Option Int
  | [] => none
  | r :: rs => if r.trucktype = ttype ∧ r.eid ≠ e1 then some r.eid else scanSecond ttype e1 rs

/-- Driver-pair pick of schedule_trip over the ordered rows.  Outer none
models the uncaught TypeError when the first row matches the truck type
but no second row exists; some none models the return-False paths. -/
def pickPairST (rows : List ERow) (ttype : String) : Option (Option (Int × Int)) :=
  match rows with
  | [] => some none
  | [r1] => if r1.trucktype = ttype then none else some none
  | r1 :: r2 :: rest =>
    if r1.trucktype = ttype then some (some (r1.eid, r2.eid))
    else
      match scanSecond ttype r1.eid (r2 :: rest) with
      | some e => some (some (r1.eid, e))
      | none => some none

/-- schedule_trip of the source: returns some (flag, new state); none
models the uncaught exception path.  Every failure path returns the
state unchanged (the source rolls back). -/
def schedule_trip (db : DB) (rid : Int) (time : Int) : Option (Bool × DB) :=
  match db.routes.find? (fun r => decide (r.rid = rid)) with
  | none => some (false, db)
  | some r =>
    let tend := time + 12 * (r.length : Int)
    let d8 := dayOf time * 1440 + 480
    let d16 := dayOf time * 1440 + 960
    if time < d8 ∨ d16 < time ∨ d16 < tend then some (false, db)
    else if db.trips.any (fun t => decide (t.rid = rid) && decide (dayOf t.ttime = dayOf time)) then
      some (false, db)
    else
      match bestFacilityForRid db rid with
      | none => some (false, db)
      | some fid =>
        match (sortLe leTruck (candTrucks db rid time tend)).head? with
        | none => some (false, db)
        | some bt =>
          match pickPairST (sortLe leERow (availERows db time tend)) bt.trucktype with
          | none => none
          | some none => some (false, db)
          | some (some (e1, e2)) =>
            some (true, { db with trips := db.trips ++ [mkTrip rid bt.tid time e1 e2 fid] })

/-- Candidate (rid, length) pairs of schedule_trips: routes of the waste
type with no trip on the date, DISTINCT, ordered by rid. -/
def avalRoutePairs (db : DB) (wt : String) (date : Int) : List (Int × Nat) :=
  sortLe leRidLen (((db.routes.filter (fun r => decide (r.wastetype = wt) &&
      ! db.trips.any (fun t => decide (t.rid = r.rid) && decide (dayOf t.ttime = date)))).map
      (fun r => (r.rid, r.length))).dedup)

/-- AvalDriver joined with employee, DISTINCT, ordered by hiredate, eid:
drivers with no trip at all on the date. -/
def availDriverRows (db : DB) (date : Int) : List ERow :=
  sortLe leERow (((db.drivers.filter (fun d =>
      ! db.trips.any (fun t => (decide (t.eid1 = d.eid) || decide (t.eid2 = d.eid)) &&
        decide (dayOf t.ttime = date)))).flatMap
      (fun d => (db.employees.filter (fun emp => decide (emp.eid = d.eid))).map
        (fun emp => (⟨d.eid, d.trucktype, emp.hiredate⟩ : ERow)))).dedup)

/-- Lowest fid of a facility accepting waste type wt. -/
def bestFacility (db : DB) (wt : String) : Option Int :=
  ((sortLe leFac (db.facilities.filter (fun f => decide (f.wastetype = wt)))).head?).map
    (fun f => f.fid)

/-- Driver-pair pick of schedule_trips (called only with at least two rows). -/
def pickPair (rows : List ERow) (ttype : String) : Option (Int × Int) :=
  match rows with
  | r1 :: r2 :: rest =>
    if r1.trucktype = ttype then some (r1.eid, r2.eid)
    else (scanSecond ttype r1.eid (r2 :: rest)).map (fun e => (r1.eid, e))
  | _ => none

/-- The part-3 packing loop of schedule_trips.  Replicates the source
exactly: a route whose computed end is not before off stops the loop but
still increments the returned counter i. -/
def tripsLoop (tid e1 e2 fid off : Int) : List (Int × Nat) → Int → Nat × List Trip
  | [], _ => (0, [])
  | (rid, len) :: rest, start =>
    let tend := start + 12 * (len : Int)
    if tend < off then
      let res := tripsLoop tid e1 e2 fid off rest (tend + 30)
      (res.1 + 1, mkTrip rid tid start e1 e2 fid :: res.2)
    else (1, [])

/-- schedule_trips of the source: returns (value returned, new state). -/
def schedule_trips (db : DB) (tid : Int) (date : Int) : Nat × DB :=
  match db.trucks.find? (fun t => decide (t.tid = tid)) with
  | none => (0, db)
  | some tr =>
    match db.trucktypes.find? (fun tt => decide (tt.trucktype = tr.trucktype)) with
    | none => (0, db)
    | some tt =>
      let pairs := avalRoutePairs db tt.wastetype date
      if pairs = [] then (0, db)
      else
        let rows := availDriverRows db date
        if rows.length < 2 then (0, db)
        else
          match pickPair rows tr.trucktype with
          | none => (0, db)
          | some (e1, e2) =>
            match bestFacility db tt.wastetype with
            | none => (0, db)
            | some fid =>
              let res := tripsLoop tid e1 e2 fid (date * 1440 + 960) pairs (date * 1440 + 480)
              (res.1, { db with trips := db.trips ++ res.2 })

/-- First layer of workmate_sphere: all employees sharing a trip with e. -/
def directWorkmates (db : DB) (e : Int) : List Int :=
  (((db.trips.filter (fun t => decide (t.eid2 = e))).map (fun t => t.eid1)) ++
    ((db.trips.filter (fun t => decide (t.eid1 = e))).map (fun t => t.eid2))).dedup

/-- Second-layer query of workmate_sphere: workmates of e other than excl. -/
def secondLayer (db : DB) (e excl : Int) : List Int :=
  (((db.trips.filter (fun t => decide (t.eid2 = e) && decide (t.eid1 ≠ excl))).map
      (fun t => t.eid1)) ++
    ((db.trips.filter (fun t => decide (t.eid1 = e) && decide (t.eid2 ≠ excl))).map
      (fun t => t.eid2))).dedup

/-- workmate_sphere of the source: first layer plus, for each direct
workmate, their direct workmates other than eid; nothing deeper. -/
def workmate_sphere (db : DB) (eid : Int) : List Int :=
  if db.drivers.any (fun d => decide (d.eid = eid)) then
    let direct := directWorkmates db eid
    if direct = [] then []
    else (direct ++ direct.flatMap (fun e => secondLayer db e eid)).dedup
  else []

/-- Candidate tids of schedule_maintenance: tids with some record, minus
tids with a record within 90 days before the date (or any later record),
minus tids with a record in the 10 days after the date. -/
def candidateTids (db : DB) (date : Int) : List Int :=
  ((db.maintenance.map (fun m => m.tid)).dedup).filter (fun tid =>
    (! db.maintenance.any (fun m => decide (m.tid = tid) && decide (date - m.mdate ≤ 90))) &&
      (! db.maintenance.any (fun m => decide (m.tid = tid) && decide (m.mdate - date ≤ 10) &&
        decide (0 < m.mdate - date))))

/-- Eids of technicians qualified for a truck type. -/
def techsFor (db : DB) (ttype : String) : List Int :=
  (db.technicians.filter (fun te => decide (te.trucktype = ttype))).map (fun te => te.eid)

/-- Lowest eid of a qualified technician with no maintenance record on day d. -/
def minFreeTech (db : DB) (ttype : String) (d : Int) : Option Int :=
  (sortLe (fun a b => decide (a ≤ b)) ((techsFor db ttype).dedup.filter (fun e =>
    ! db.maintenance.any (fun m => decide (m.eid = e) && decide (m.mdate = d))))).head?

/-- An upper bound on every mdate in the state. -/
def maxMdate (db : DB) : Int :=
  db.maintenance.foldr (fun m acc => max m.mdate acc) 0

/-- Fuel that provably reaches a day beyond every recorded mdate. -/
def goodFuel (db : DB) (start : Int) : Nat := (maxMdate db + 1 - start).toNat + 1

/-- The forward day-by-day search of schedule_maintenance, with fuel. -/
def findDay (db : DB) (ttype : String) : Nat → Int → Option (Int × Int)
  | 0, _ => none
  | fuel + 1, d =>
    match minFreeTech db ttype d with
    | some e => some (d, e)
    | none => findDay db ttype fuel (d + 1)

/-- One candidate truck of schedule_maintenance: skip when no technician
is qualified, otherwise insert a record on the first found day. -/
def processTruck (db : DB) (date tid : Int) : DB × Nat :=
  match db.trucks.find? (fun t => decide (t.tid = tid)) with
  | none => (db, 0)
  | some tr =>
    if techsFor db tr.trucktype = [] then (db, 0)
    else
      match findDay db tr.trucktype (goodFuel db (date + 1)) (date + 1) with
      | some de => ({ db with maintenance := db.maintenance ++ [⟨tid, de.2, de.1⟩] }, 1)
      | none => (db, 0)

/-- schedule_maintenance of the source: returns (count, new state). -/
def schedule_maintenance (db : DB) (date : Int) : Nat × DB :=
  let res := (candidateTids db date).foldl
    (fun acc tid =>
      let r := processTruck acc.1 date tid
      (r.1, acc.2 + r.2))
    (db, 0)
  (res.2, res.1)

/-- Two trips compete for a resource: same truck, or a common driver. -/
def sharesResource (t u : Trip) : Bool :=
  decide (t.tid = u.tid) || decide (t.eid1 = u.eid1) || decide (t.eid1 = u.eid2) ||
    decide (t.eid2 = u.eid1) || decide (t.eid2 = u.eid2)

/-- Separation by at least 30 minutes: the buffered window of either trip
does not meet the other interval. -/
def sepOK (R : List Route) (t u : Trip) : Bool :=
  ! (decide (t.ttime < tripEndT R u + 30) && decide (u.ttime < tripEndT R t + 30))

/-- Non-overlap of the two both-sides-buffered open windows
(start - 30, end + 30), the literal reading of the claimed invariant. -/
def buffOK (R : List Route) (t u : Trip) : Bool :=
  ! (decide (t.ttime - 30 < tripEndT R u + 30) && decide (u.ttime - 30 < tripEndT R t + 30))

/-- All unordered pairs of distinct positions satisfy f. -/
def pairsOK {α : Type} (f : α → α → Bool) : List α → Bool
  | [] => true
  | t :: ts => ts.all (fun u => f t u) && pairsOK f ts

/-- The 30-minute separation invariant over resource-sharing trips. -/
def sepInv (db : DB) : Bool :=
  pairsOK (fun t u => ! sharesResource t u || sepOK db.routes t u) db.trips

/-- The claimed both-buffered non-overlap invariant over sharing trips. -/
def buffInv (db : DB) : Bool :=
  pairsOK (fun t u => ! sharesResource t u || buffOK db.routes t u) db.trips

/-- Every trip references an existing route. -/
def ridsResolve (db : DB) : Prop := ∀ t ∈ db.trips, ∃ r ∈ db.routes, r.rid = t.rid

/-- Route ids are a key: equal rids mean the same row. -/
def ridUnique (db : DB) : Prop := ∀ r ∈ db.routes, ∀ s ∈ db.routes, r.rid = s.rid → r = s

/-- Every trip lies inside the 08:00 to 16:00 window of its own day. -/
def whConfined (db : DB) : Prop :=
  ∀ t ∈ db.trips, dayOf t.ttime * 1440 + 480 ≤ t.ttime ∧
    tripEndT db.routes t ≤ dayOf t.ttime * 1440 + 960

/-- The truck has no committed trip on the given date. -/
def noTripOnDate (db : DB) (tid date : Int) : Prop :=
  ∀ t ∈ db.trips, t.tid = tid → dayOf t.ttime ≠ date

/-- Two employees shared some trip (as the stored max/min driver pair). -/
def sharedTripRel (db : DB) (a b : Int) : Prop :=
  ∃ t ∈ db.trips, (t.eid1 = a ∧ t.eid2 = b) ∨ (t.eid1 = b ∧ t.eid2 = a)

/-- A state with a chain of shared trips 1-2, 2-3, 3-4. -/
def chainDB : DB :=
  { routes := [], trucktypes := [], trucks := [], employees := [],
    drivers := [⟨1, "A"⟩], technicians := [], facilities := [],
    trips := [⟨100, 5, 1000, none, 2, 1, 1⟩, ⟨101, 6, 3000, none, 3, 2, 1⟩,
      ⟨102, 7, 5000, none, 4, 3, 1⟩],
    maintenance := [] }

/-- A state whose only candidate route needs 9 hours, so the trip ending
at 17:00 is rejected by the packing loop. -/
def longRouteDB : DB :=
  { routes := [⟨1, "w", 45⟩], trucktypes := [⟨"A", "w"⟩], trucks := [⟨1, "A", 10⟩],
    employees := [⟨1, "e one", 0⟩, ⟨2, "e two", 1⟩],
    drivers := [⟨1, "A"⟩, ⟨2, "A"⟩], technicians := [],
    facilities := [⟨1, "w"⟩], trips := [], maintenance := [] }

/-- A state where the most senior available employee holds two driver
qualifications, the qualifying one listed first. -/
def twoQualDB : DB :=
  { routes := [⟨1, "w", 5⟩], trucktypes := [⟨"A", "w"⟩], trucks := [⟨1, "A", 5⟩],
    employees := [⟨1, "e one", 0⟩, ⟨2, "e two", 1⟩],
    drivers := [⟨1, "A"⟩, ⟨1, "B"⟩, ⟨2, "A"⟩], technicians := [],
    facilities := [⟨1, "w"⟩], trips := [], maintenance := [] }

/-- The state twoQualDB after the duplicate-driver insertion. -/
def twoQualRes : DB := { twoQualDB with trips := [mkTrip 1 1 480 1 1 1] }

/-- A state with a zero-length route, so a trip may start at 16:00. -/
def zeroLenDB : DB :=
  { routes := [⟨1, "w", 0⟩], trucktypes := [⟨"A", "w"⟩], trucks := [⟨1, "A", 5⟩],
    employees := [⟨1, "e one", 0⟩, ⟨2, "e two", 1⟩],
    drivers := [⟨1, "A"⟩, ⟨2, "A"⟩], technicians := [],
    facilities := [⟨1, "w"⟩], trips := [], maintenance := [] }

/-- The state zeroLenDB after scheduling route 1 at minute 960 (16:00). -/
def zeroLenRes : DB := { zeroLenDB with trips := [mkTrip 1 1 960 1 2 1] }

/-- A state with a zero-length trip starting exactly 30 minutes before a
candidate window. -/
def pointTripDB : DB :=
  { routes := [⟨1, "w", 0⟩], trucktypes := [], trucks := [⟨1, "A", 5⟩],
    employees := [], drivers := [], technicians := [], facilities := [],
    trips := [⟨1, 1, 480, none, 2, 1, 1⟩], maintenance := [] }

/-- A state where two short routes get packed back to back. -/
def twoRouteDB : DB :=
  { routes := [⟨1, "w", 5⟩, ⟨2, "w", 5⟩], trucktypes := [⟨"A", "w"⟩],
    trucks := [⟨1, "A", 10⟩],
    employees := [⟨1, "e one", 0⟩, ⟨2, "e two", 1⟩],
    drivers := [⟨1, "A"⟩, ⟨2, "A"⟩], technicians := [],
    facilities := [⟨1, "w"⟩], trips := [], maintenance := [] }

/-- The state twoRouteDB after its two trips are packed on day 0. -/
def twoRouteRes : DB :=
  { twoRouteDB with trips := [mkTrip 1 1 480 1 2 1, mkTrip 2 1 570 1 2 1] }

/-- twoRouteDB with the truck already out on route 2 on day 0 with other
drivers; schedule_trips still packs route 1 onto the same truck at 08:00. -/
def busyTruckDB : DB :=
  { twoRouteDB with trips := [⟨2, 1, 480, none, 11, 10, 1⟩] }

/-- A truck overdue for maintenance that is on a trip on day 1, with a
free qualified technician on day 1. -/
def overdueDB : DB :=
  { routes := [], trucktypes := [⟨"A", "w"⟩], trucks := [⟨1, "A", 5⟩],
    employees := [], drivers := [], technicians := [⟨7, "A"⟩],
    facilities := [], trips := [⟨3, 1, 1920, none, 12, 11, 1⟩],
    maintenance := [⟨1, 9, -200⟩] }

/-- The state overdueDB after schedule_maintenance on day 0. -/
def overdueRes : DB := { overdueDB with maintenance := [⟨1, 9, -200⟩, ⟨1, 7, 1⟩] }

/-- C1: in chainDB employee 4 is reachable from employee 1 through the
shared-trip chain 1-2, 2-3, 3-4, yet workmate_sphere misses 4 (it only
expands two layers), while it does contain the two-hop workmate 3. -/
theorem c1_workmate_two_hop_bug :
    Relation.ReflTransGen (sharedTripRel chainDB) 1 4 ∧
      4 ∉ workmate_sphere chainDB 1 ∧ 3 ∈ workmate_sphere chainDB 1 := by
  refine ⟨?_, by decide, by decide⟩
  have h12 : sharedTripRel chainDB 1 2 :=
    ⟨⟨100, 5, 1000, none, 2, 1, 1⟩, by decide, Or.inr ⟨rfl, rfl⟩⟩
  have h23 : sharedTripRel chainDB 2 3 :=
    ⟨⟨101, 6, 3000, none, 3, 2, 1⟩, by decide, Or.inr ⟨rfl, rfl⟩⟩
  have h34 : sharedTripRel chainDB 3 4 :=
    ⟨⟨102, 7, 5000, none, 4, 3, 1⟩, by decide, Or.inr ⟨rfl, rfl⟩⟩
  exact Relation.ReflTransGen.tail
    (Relation.ReflTransGen.tail (Relation.ReflTransGen.single h12) h23) h34

/-- C2: on longRouteDB the single candidate route is rejected (its trip
would end at 17:00), no trip is inserted, yet schedule_trips returns 1:
the rejected route is counted by the returned value. -/
theorem c2_schedule_trips_count_bug :
    schedule_trips longRouteDB 1 0 = (1, longRouteDB) ∧ longRouteDB.trips = [] := by
  decide

/-- C3: whenever schedule_trip returns False, the state is unchanged:
every failure path of the embedding returns the input state. -/
theorem c3_schedule_trip_failure_no_change :
    ∀ (db : DB) (rid time : Int) (db' : DB),
      schedule_trip db rid time = some (false, db') → db' = db := by
  intro db rid time db' h
  unfold schedule_trip at h
  repeat' split at h
  all_goals simp_all
  all_goals (repeat' split at h)
  all_goals simp_all

/-- Witness for C3 at a concrete failing call (start before 08:00). -/
theorem c3_witness : longRouteDB = longRouteDB :=
  c3_schedule_trip_failure_no_change longRouteDB 1 300 longRouteDB (by decide)

/-- C4 counterexample: packing two routes back to back already violates
the claimed both-buffered non-overlap invariant buffInv (their buffered
windows share 30 minutes), though the 30-minute separation sepInv holds;
and calling schedule_trips on a truck that already has a trip on the
date violates even sepInv, starting from a state satisfying both. -/
theorem c4_buffered_invariant_cex :
    (buffInv twoRouteDB = true ∧ sepInv (schedule_trips twoRouteDB 1 0).2 = true ∧
      buffInv (schedule_trips twoRouteDB 1 0).2 = false) ∧
    (buffInv busyTruckDB = true ∧ sepInv busyTruckDB = true ∧
      sepInv (schedule_trips busyTruckDB 1 0).2 = false) := by
  decide

/-- C5: on twoQualDB, employee 1 (most senior, qualified for the selected
truck type, holding a second qualification row) is chosen as both
drivers: the inserted trip has eid1 = eid2 = 1. -/
theorem c5_duplicate_driver_bug :
    schedule_trip twoQualDB 1 480 = some (true, twoQualRes) ∧
      twoQualRes.trips = [⟨1, 1, 480, none, 1, 1, 1⟩] := by
  decide

/-- C6 counterexample: for the window starting at minute 510, a
zero-length trip at minute 480 (exactly 30 minutes before the start) is
excluded by the OVERLAPS-based availability test, although the claimed
strict condition tripStart - 30 < end and start < tripEnd + 30 fails for
it (and there is no maintenance record). -/
theorem c6_strict_overlap_cex :
    truckExcluded pointTripDB 510 570 1 = true ∧
      (¬ ∃ t ∈ pointTripDB.trips, t.tid = 1 ∧ ∃ r ∈ pointTripDB.routes,
        r.rid = t.rid ∧ t.ttime - 30 < 570 ∧ 510 < t.ttime + 12 * (r.length : Int) + 30) ∧
      pointTripDB.maintenance = [] := by
  decide

/-- C7 counterexample: with a zero-length route, schedule_trip commits a
trip starting exactly at 16:00 (minute of day 960), so the committed
start does not lie in the claimed half-open window [08:00, 16:00). -/
theorem c7_start_at_1600_cex :
    schedule_trip zeroLenDB 1 960 = some (true, zeroLenRes) ∧
      zeroLenRes.trips = [⟨1, 1, 960, none, 2, 1, 1⟩] ∧ ¬ todOf 960 < 960 := by
  decide

/-- C8: on overdueDB, schedule_maintenance schedules truck 1 for
maintenance on day 1 although truck 1 is on a trip on day 1: the day
search never checks the truck against its own trips. -/
theorem c8_maintenance_trip_conflict_bug :
    schedule_maintenance overdueDB 0 = (1, overdueRes) ∧
      (∃ m ∈ overdueRes.maintenance, m.tid = 1 ∧ m.mdate = 1) ∧
      (∃ t ∈ overdueRes.trips, t.tid = 1 ∧ dayOf t.ttime = 1) := by
  decide

/-- C9: the candidate set of schedule_maintenance is exactly the trucks
with at least one maintenance record, all of whose records (hence the
most recent) are more than 90 days before the date, and with no record
in the closed window from the date to 10 days after; in particular a
truck with no record at all is never a candidate. -/
theorem c9_candidate_characterization :
    ∀ (db : DB) (date tid : Int),
      tid ∈ candidateTids db date ↔
        ((∃ m ∈ db.maintenance, m.tid = tid) ∧
          (∀ m ∈ db.maintenance, m.tid = tid → m.mdate < date - 90) ∧
          (∀ m ∈ db.maintenance, m.tid = tid → ¬(date ≤ m.mdate ∧ m.mdate ≤ date + 10))) := by
  intro db date tid
  simp only [candidateTids, List.mem_filter, List.mem_dedup, List.mem_map, Bool.and_eq_true,
    Bool.not_eq_true', List.any_eq_false, Bool.and_eq_true, decide_eq_true_eq]
  constructor
  · rintro ⟨⟨m, hm, rfl⟩, h2, h3⟩
    refine ⟨⟨m, hm, rfl⟩, ?_, ?_⟩
    · intro m2 hm2 ht
      have := h2 m2 hm2
      simp [ht] at this
      omega
    · intro m2 hm2 ht
      have ha := h2 m2 hm2
      have hb := h3 m2 hm2
      simp [ht] at ha hb
      omega
  · rintro ⟨⟨m, hm, htid⟩, h2, h3⟩
    refine ⟨⟨m, hm, htid⟩, ?_, ?_⟩
    · intro m2 hm2
      by_cases ht : m2.tid = tid
      · have := h2 m2 hm2 ht
        simp [ht]
        omega
      · simp [ht]
    · intro m2 hm2
      by_cases ht : m2.tid = tid
      · have := h3 m2 hm2 ht
        simp [ht]
        omega
      · simp [ht]

/-- Inserting into a list never yields the empty list. -/
theorem insertLe_ne_nil {α : Type} (le : α → α → Bool) (a : α) (l : List α) :
    insertLe le a l ≠ [] := by
  cases l with
  | nil => simp [insertLe]
  | cons b bs =>
    simp only [insertLe]
    split <;> simp

/-- Sorting a nonempty list yields a nonempty list. -/
theorem sortLe_ne_nil {α : Type} (le : α → α → Bool) (l : List α) (h : l ≠ []) :
    sortLe le l ≠ [] := by
  cases l with
  | nil => exact absurd rfl h
  | cons b bs => exact insertLe_ne_nil le b _

/-- Every recorded mdate is bounded by maxMdate. -/
theorem mdate_le_max (db : DB) : ∀ m ∈ db.maintenance, m.mdate ≤ maxMdate db := by
  unfold maxMdate
  induction db.maintenance with
  | nil => simp
  | cons m ms ih =>
    intro x hx
    rw [List.mem_cons] at hx
    rcases hx with rfl | hx
    · simp [le_max_iff]
    · simp only [List.foldr_cons, le_max_iff]
      exact Or.inr (ih x hx)

/-- On a day with no maintenance record at all, some qualified technician
is free, provided any technician is qualified. -/
theorem minFreeTech_isSome (db : DB) (ttype : String) (d : Int)
    (h : techsFor db ttype ≠ [])
    (hfree : ∀ m ∈ db.maintenance, m.mdate ≠ d) :
    (minFreeTech db ttype d).isSome = true := by
  unfold minFreeTech
  have hfil : ((techsFor db ttype).dedup.filter (fun e =>
      ! db.maintenance.any (fun m => decide (m.eid = e) && decide (m.mdate = d)))) =
      (techsFor db ttype).dedup := by
    apply List.filter_eq_self.mpr
    intro e _
    simp only [Bool.not_eq_true', List.any_eq_false]
    intro m hm
    simp only [Bool.and_eq_true, decide_eq_true_eq, not_and]
    intro _
    exact hfree m hm
  rw [hfil]
  have hne : (techsFor db ttype).dedup ≠ [] := by
    simpa [List.dedup_eq_nil] using h
  have := sortLe_ne_nil (fun a b => decide (a ≤ b)) _ hne
  cases hs : sortLe (fun a b => decide (a ≤ b)) (techsFor db ttype).dedup with
  | nil => exact absurd hs this
  | cons x xs => simp

/-- The fuelled search succeeds when some day within the fuel has a free
qualified technician. -/
theorem findDay_isSome_of_witness (db : DB) (ttype : String) :
    ∀ (fuel : Nat) (start : Int),
      (∃ k : Nat, k < fuel ∧ (minFreeTech db ttype (start + k)).isSome = true) →
        (findDay db ttype fuel start).isSome = true := by
  intro fuel
  induction fuel with
  | zero => rintro start ⟨k, hk, _⟩; omega
  | succ n ih =>
    rintro start ⟨k, hk, hsome⟩
    unfold findDay
    cases h : minFreeTech db ttype start with
    | some e => simp
    | none =>
      simp only []
      apply ih
      cases k with
      | zero => simp only [Nat.cast_zero, add_zero] at hsome; rw [h] at hsome; simp at hsome
      | succ k2 =>
        refine ⟨k2, by omega, ?_⟩
        have : start + 1 + (k2 : Int) = start + ((k2 + 1 : Nat) : Int) := by push_cast; ring
        rw [this]
        exact hsome

/-- C10: the day-by-day search of schedule_maintenance always halts:
whenever at least one technician is qualified for the truck type, the
search with the computed fuel finds a day (at the latest, the first day
past every recorded mdate), so processTruck and schedule_maintenance
are total; when no technician is qualified the search is skipped. -/
theorem c10_day_search_terminates :
    ∀ (db : DB) (ttype : String) (start : Int),
      techsFor db ttype ≠ [] →
        (findDay db ttype (goodFuel db start) start).isSome = true := by
  intro db ttype start h
  apply findDay_isSome_of_witness
  refine ⟨(maxMdate db + 1 - start).toNat, by simp [goodFuel], ?_⟩
  apply minFreeTech_isSome db ttype _ h
  intro m hm
  have := mdate_le_max db m hm
  omega

/-- Witness for C10 on the concrete overdue state. -/
theorem c10_witness :
    (findDay overdueDB "A" (goodFuel overdueDB 1) 1).isSome = true :=
  c10_day_search_terminates overdueDB "A" 1 (by decide)

/-- The OVERLAPS test of the availability view, characterized: for a
positive-length existing trip it is the strict open-interval condition;
for a zero-length trip the left endpoint is inclusive. -/
theorem overlapsSQL_window_iff (a b : Int) (hab : a ≤ b) (s : Int) (L : Nat) :
    overlapsSQL (a - 30) (b + 30) s (s + 12 * (L : Int)) = true ↔
      ((0 < L ∧ s - 30 < b ∧ a < s + 12 * (L : Int) + 30) ∨
        (L = 0 ∧ a - 30 ≤ s ∧ s < b + 30)) := by
  unfold overlapsSQL
  simp only [Bool.or_eq_true, Bool.and_eq_true, decide_eq_true_eq]
  omega

/-- C6 (amended): a truck or employee is excluded for the window from
tstart to tend exactly when some existing trip of theirs, joined with an
existing route row, satisfies: for positive route length the strict
condition tripStart - 30 < tend and tstart < tripEnd + 30 (so touching
endpoints exactly 30 minutes apart do not conflict); for a zero-length
trip the left endpoint is inclusive (tstart - 30 ≤ tripStart < tend + 30);
a truck with a maintenance record on the calendar day of tstart is
additionally excluded. -/
theorem c6_exclusion_characterization :
    ∀ (db : DB) (tstart tend tid e : Int), tstart ≤ tend →
      ((truckExcluded db tstart tend tid = true ↔
        ((∃ t ∈ db.trips, t.tid = tid ∧ ∃ r ∈ db.routes, r.rid = t.rid ∧
          ((0 < r.length ∧ t.ttime - 30 < tend ∧ tstart < t.ttime + 12 * (r.length : Int) + 30) ∨
            (r.length = 0 ∧ tstart - 30 ≤ t.ttime ∧ t.ttime < tend + 30))) ∨
          (∃ m ∈ db.maintenance, m.tid = tid ∧ m.mdate = dayOf tstart))) ∧
        (empExcluded db tstart tend e = true ↔
          (∃ t ∈ db.trips, (t.eid1 = e ∨ t.eid2 = e) ∧ ∃ r ∈ db.routes, r.rid = t.rid ∧
            ((0 < r.length ∧ t.ttime - 30 < tend ∧ tstart < t.ttime + 12 * (r.length : Int) + 30) ∨
              (r.length = 0 ∧ tstart - 30 ≤ t.ttime ∧ t.ttime < tend + 30))))) := by
  intro db tstart tend tid e hle
  unfold truckExcluded empExcluded notAvalOverlap
  simp only [Bool.or_eq_true, List.any_eq_true, Bool.and_eq_true, decide_eq_true_eq,
    overlapsSQL_window_iff tstart tend hle]
  exact ⟨trivial, trivial⟩

/-- Witness for C6 on the concrete zero-length-trip state. -/
theorem c6_witness :
    (truckExcluded pointTripDB 510 570 1 = true ↔
      ((∃ t ∈ pointTripDB.trips, t.tid = 1 ∧ ∃ r ∈ pointTripDB.routes, r.rid = t.rid ∧
        ((0 < r.length ∧ t.ttime - 30 < 570 ∧ 510 < t.ttime + 12 * (r.length : Int) + 30) ∨
          (r.length = 0 ∧ 510 - 30 ≤ t.ttime ∧ t.ttime < 570 + 30))) ∨
        (∃ m ∈ pointTripDB.maintenance, m.tid = 1 ∧ m.mdate = dayOf 510))) ∧
      (empExcluded pointTripDB 510 570 1 = true ↔
        (∃ t ∈ pointTripDB.trips, (t.eid1 = 1 ∨ t.eid2 = 1) ∧ ∃ r ∈ pointTripDB.routes, r.rid = t.rid ∧
          ((0 < r.length ∧ t.ttime - 30 < 570 ∧ 510 < t.ttime + 12 * (r.length : Int) + 30) ∨
            (r.length = 0 ∧ 510 - 30 ≤ t.ttime ∧ t.ttime < 570 + 30)))) :=
  c6_exclusion_characterization pointTripDB 510 570 1 1 (by decide)

/-- Membership through stable insertion. -/
theorem mem_insertLe {α : Type} (le : α → α → Bool) (a x : α) :
    ∀ (l : List α), x ∈ insertLe le a l ↔ x = a ∨ x ∈ l := by
  intro l
  induction l with
  | nil => simp [insertLe]
  | cons b bs ih =>
    simp only [insertLe]
    split
    · simp
    · simp only [List.mem_cons, ih]
      tauto

/-- Sorting preserves membership. -/
theorem mem_sortLe {α : Type} (le : α → α → Bool) (x : α) :
    ∀ (l : List α), x ∈ sortLe le l ↔ x ∈ l := by
  intro l
  induction l with
  | nil => simp [sortLe]
  | cons b bs ih =>
    simp only [sortLe, List.foldr_cons] at *
    rw [mem_insertLe]
    simp [ih]

/-- The head of the sorted list is a member of the original list. -/
theorem head?_mem_sortLe {α : Type} (le : α → α → Bool) (l : List α) (x : α)
    (h : (sortLe le l).head? = some x) : x ∈ l := by
  have hmem : x ∈ sortLe le l := by
    cases hs : sortLe le l with
    | nil => rw [hs] at h; simp at h
    | cons a as =>
      rw [hs] at h
      simp only [List.head?_cons, Option.some.injEq] at h
      rw [← h]
      simp
  rw [mem_sortLe] at hmem
  exact hmem

/-- When rid is a key, find? by rid returns the member itself. -/
theorem find?_rid_unique (R : List Route) (hu : ∀ r ∈ R, ∀ s ∈ R, r.rid = s.rid → r = s) :
    ∀ r ∈ R, R.find? (fun s => decide (s.rid = r.rid)) = some r := by
  induction R with
  | nil => simp
  | cons a as ih =>
    intro r hr
    rw [List.mem_cons] at hr
    by_cases ha : a.rid = r.rid
    · have : a = r := by
        rcases hr with rfl | hr
        · rfl
        · exact hu a (by simp) r (by simp [hr]) ha
      simp [List.find?_cons, ha, this]
    · rcases hr with rfl | hr
      · exact absurd rfl ha
      · rw [List.find?_cons]
        rw [show (decide (a.rid = r.rid)) = false by simp [ha]]
        exact ih (fun x hx y hy => hu x (by simp [hx]) y (by simp [hy])) r hr

/-- When rid is a key, lenOf recovers the length of a member route. -/
theorem lenOf_eq_of_unique (R : List Route) (hu : ∀ r ∈ R, ∀ s ∈ R, r.rid = s.rid → r = s)
    (r : Route) (hr : r ∈ R) : lenOf R r.rid = r.length := by
  unfold lenOf
  rw [find?_rid_unique R hu r hr]

/-- Splitting the pairwise checker over an append. -/
theorem pairsOK_append {α : Type} (f : α → α → Bool) :
    ∀ (l1 l2 : List α), pairsOK f (l1 ++ l2) = true ↔
      (pairsOK f l1 = true ∧ pairsOK f l2 = true ∧ ∀ a ∈ l1, ∀ b ∈ l2, f a b = true) := by
  intro l1
  induction l1 with
  | nil => simp [pairsOK]
  | cons a as ih =>
    intro l2
    simp only [List.cons_append, pairsOK, Bool.and_eq_true, List.all_append, List.all_eq_true,
      ih, List.forall_mem_cons, List.append_eq, List.mem_append]
    tauto

/-- The pairwise checker follows from a pairwise proposition. -/
theorem pairsOK_of_pairwise {α : Type} (f : α → α → Bool) (P : α → α → Prop) :
    ∀ (l : List α), List.Pairwise P l → (∀ x y, P x y → f x y = true) →
      pairsOK f l = true := by
  intro l
  induction l with
  | nil => intro _ _; simp [pairsOK]
  | cons a as ih =>
    intro hp himp
    rw [List.pairwise_cons] at hp
    simp only [pairsOK, Bool.and_eq_true, List.all_eq_true]
    exact ⟨fun u hu => himp a u (hp.1 u hu), ih hp.2 himp⟩

/-- A scan result is the eid of some row of the list. -/
theorem scanSecond_mem (ttype : String) (x : Int) :
    ∀ (l : List ERow) (e : Int), scanSecond ttype x l = some e → ∃ r ∈ l, r.eid = e := by
  intro l
  induction l with
  | nil => simp [scanSecond]
  | cons r rs ih =>
    intro e h
    simp only [scanSecond] at h
    split at h
    · simp only [Option.some.injEq] at h
      exact ⟨r, by simp, h⟩
    · obtain ⟨s, hs, hse⟩ := ih e h
      exact ⟨s, by simp [hs], hse⟩

/-- Both picked driver ids come from the candidate rows. -/
theorem pickPair_mem (rows : List ERow) (ttype : String) (e1 e2 : Int)
    (h : pickPair rows ttype = some (e1, e2)) :
    (∃ r ∈ rows, r.eid = e1) ∧ (∃ r ∈ rows, r.eid = e2) := by
  unfold pickPair at h
  split at h
  · rename_i r1 r2 rest
    split at h
    · simp only [Option.some.injEq, Prod.mk.injEq] at h
      exact ⟨⟨r1, by simp, h.1⟩, ⟨r2, by simp, h.2⟩⟩
    · simp only [Option.map_eq_some'] at h
      obtain ⟨e, he, heq⟩ := h
      obtain ⟨s, hs, hse⟩ := scanSecond_mem ttype r1.eid _ e he
      simp only [Prod.mk.injEq] at heq
      refine ⟨⟨r1, by simp, heq.1.symm ▸ rfl⟩, ⟨s, by simp [List.mem_cons] at hs ⊢; tauto, ?_⟩⟩
      rw [hse, heq.2]
  · exact absurd h (by simp)

/-- Both picked driver ids of schedule_trip come from the rows. -/
theorem pickPairST_mem (rows : List ERow) (ttype : String) (e1 e2 : Int)
    (h : pickPairST rows ttype = some (some (e1, e2))) :
    (∃ r ∈ rows, r.eid = e1) ∧ (∃ r ∈ rows, r.eid = e2) := by
  unfold pickPairST at h
  split at h
  · exact absurd h (by simp)
  · split at h <;> exact absurd h (by simp)
  · rename_i r1 r2 rest
    split at h
    · simp only [Option.some.injEq, Prod.mk.injEq] at h
      exact ⟨⟨r1, by simp, h.1⟩, ⟨r2, by simp, h.2⟩⟩
    · split at h
      · rename_i e he
        simp only [Option.some.injEq, Prod.mk.injEq] at h
        obtain ⟨s, hs, hse⟩ := scanSecond_mem ttype r1.eid _ e he
        refine ⟨⟨r1, by simp, h.1.symm ▸ rfl⟩, ⟨s, by simp [List.mem_cons] at hs ⊢; tauto, ?_⟩⟩
        rw [hse, h.2]
      · exact absurd h (by simp)

/-- A trip not flagged by the availability view keeps a 30-minute gap to
the candidate window, provided its route exists. -/
theorem sep_prop_of_not_overlap (R : List Route) (a b : Int) (t : Trip)
    (hab : a ≤ b) (hfk : ∃ r ∈ R, r.rid = t.rid)
    (hno : notAvalOverlap R a b t = false) :
    ¬(t.ttime < b + 30 ∧ a < tripEndT R t + 30) := by
  obtain ⟨r0, hr0, hrid0⟩ := hfk
  have hsome : (R.find? (fun r => decide (r.rid = t.rid))).isSome := by
    rw [List.find?_isSome]
    exact ⟨r0, hr0, by simp [hrid0]⟩
  obtain ⟨r1, hr1eq⟩ := Option.isSome_iff_exists.mp hsome
  have hr1mem : r1 ∈ R := List.mem_of_find?_eq_some hr1eq
  have hr1rid : r1.rid = t.rid := by
    have := List.find?_some hr1eq
    simpa using this
  have hend : tripEndT R t = t.ttime + 12 * (r1.length : Int) := by
    unfold tripEndT lenOf
    rw [hr1eq]
  unfold notAvalOverlap at hno
  rw [List.any_eq_false] at hno
  have hx := hno r1 hr1mem
  simp only [Bool.and_eq_true, decide_eq_true_eq, hr1rid, not_and, Bool.not_eq_true] at hx
  have hover : overlapsSQL (a - 30) (b + 30) t.ttime (t.ttime + 12 * (r1.length : Int)) = false := by
    simpa using hx
  rw [hend]
  intro hcon
  have : overlapsSQL (a - 30) (b + 30) t.ttime (t.ttime + 12 * (r1.length : Int)) = true := by
    rw [overlapsSQL_window_iff a b hab]
    omega
  rw [this] at hover
  simp at hover

/-- An available truck has no flagged trip. -/
theorem truckExcluded_false_notAval (db : DB) (a b tid : Int)
    (h : truckExcluded db a b tid = false) :
    ∀ t ∈ db.trips, t.tid = tid → notAvalOverlap db.routes a b t = false := by
  unfold truckExcluded at h
  rw [Bool.or_eq_false_iff] at h
  have h1 := h.1
  rw [List.any_eq_false] at h1
  intro t ht htid
  have := h1 t ht
  simp only [Bool.and_eq_true, decide_eq_true_eq, htid, not_and, Bool.not_eq_true] at this
  simpa using this

/-- An available employee has no flagged trip. -/
theorem empExcluded_false_notAval (db : DB) (a b e : Int)
    (h : empExcluded db a b e = false) :
    ∀ t ∈ db.trips, t.eid1 = e ∨ t.eid2 = e → notAvalOverlap db.routes a b t = false := by
  unfold empExcluded at h
  rw [List.any_eq_false] at h
  intro t ht heid
  have := h t ht
  simp only [Bool.and_eq_true, Bool.or_eq_true, decide_eq_true_eq, not_and,
    Bool.not_eq_true] at this
  exact this heid

/-- Rows of the employee join of schedule_trip are not excluded. -/
theorem availERows_not_excluded (db : DB) (a b : Int) (row : ERow)
    (h : row ∈ availERows db a b) : empExcluded db a b row.eid = false := by
  unfold availERows at h
  rw [List.mem_flatMap] at h
  obtain ⟨d, hd, hrow⟩ := h
  rw [List.mem_filter] at hd
  rw [List.mem_map] at hrow
  obtain ⟨emp, _, heq⟩ := hrow
  have heid : row.eid = d.eid := by rw [← heq]
  rw [heid]
  have := hd.2
  simpa using this

/-- Rows of the full-day driver list of schedule_trips have no trip at
all on the date. -/
theorem availDriverRows_free (db : DB) (date : Int) (row : ERow)
    (h : row ∈ availDriverRows db date) :
    ∀ t ∈ db.trips, t.eid1 = row.eid ∨ t.eid2 = row.eid → dayOf t.ttime ≠ date := by
  unfold availDriverRows at h
  rw [mem_sortLe, List.mem_dedup, List.mem_flatMap] at h
  obtain ⟨d, hd, hrow⟩ := h
  rw [List.mem_filter] at hd
  rw [List.mem_map] at hrow
  obtain ⟨emp, _, heq⟩ := hrow
  have heid : row.eid = d.eid := by rw [← heq]
  have h2 := hd.2
  simp only [Bool.not_eq_true', List.any_eq_false] at h2
  intro t ht heidor
  have := h2 t ht
  simp only [Bool.and_eq_true, Bool.or_eq_true, decide_eq_true_eq, not_and] at this
  rw [heid] at heidor
  exact this heidor

/-- Each candidate pair of schedule_trips comes from an existing route. -/
theorem avalRoutePairs_mem (db : DB) (wt : String) (date : Int) (p : Int × Nat)
    (hp : p ∈ avalRoutePairs db wt date) :
    ∃ r ∈ db.routes, r.rid = p.1 ∧ r.length = p.2 := by
  unfold avalRoutePairs at hp
  rw [mem_sortLe, List.mem_dedup, List.mem_map] at hp
  obtain ⟨r, hr, heq⟩ := hp
  rw [List.mem_filter] at hr
  exact ⟨r, hr.1, by rw [← heq], by rw [← heq]⟩

/-- The packing loop produces trips of the given truck and driver pair,
starting no earlier than the running start, ending before the cutoff,
and pairwise separated by at least 30 minutes. -/
theorem tripsLoop_spec (R : List Route) (tid e1 e2 fid off : Int) :
    ∀ (pairs : List (Int × Nat)) (start : Int),
      (∀ p ∈ pairs, lenOf R p.1 = p.2) →
        ((∀ t ∈ (tripsLoop tid e1 e2 fid off pairs start).2,
            t.tid = tid ∧ t.eid1 = max e1 e2 ∧ t.eid2 = min e1 e2 ∧
              start ≤ t.ttime ∧ tripEndT R t < off ∧ t.ttime ≤ tripEndT R t) ∧
          List.Pairwise (fun t u => tripEndT R t + 30 ≤ u.ttime)
            (tripsLoop tid e1 e2 fid off pairs start).2) := by
  intro pairs
  induction pairs with
  | nil => intro start _; simp [tripsLoop]
  | cons p rest ih =>
    intro start HL
    obtain ⟨rid, len⟩ := p
    have hlen : lenOf R rid = len := HL (rid, len) (by simp)
    have HL2 : ∀ q ∈ rest, lenOf R q.1 = q.2 := fun q hq => HL q (by simp [hq])
    simp only [tripsLoop]
    split
    · rename_i hlt
      obtain ⟨ihA, ihB⟩ := ih (start + 12 * (len : Int) + 30) HL2
      have hendhead : tripEndT R (mkTrip rid tid start e1 e2 fid) = start + 12 * (len : Int) := by
        unfold tripEndT mkTrip
        simp [hlen]
      constructor
      · intro t ht
        simp only [List.mem_cons] at ht
        rcases ht with rfl | ht
        · refine ⟨rfl, rfl, rfl, le_refl _, ?_, ?_⟩
          · rw [hendhead]; exact hlt
          · rw [hendhead]
            show start ≤ start + 12 * (len : Int)
            have : (0 : Int) ≤ 12 * (len : Int) := by positivity
            omega
        · obtain ⟨ha, hb, hc, hd, he, hf⟩ := ihA t ht
          refine ⟨ha, hb, hc, ?_, he, hf⟩
          have : (0 : Int) ≤ 12 * (len : Int) := by positivity
          omega
      · rw [List.pairwise_cons]
        refine ⟨?_, ihB⟩
        intro u hu
        obtain ⟨_, _, _, hd, _, _⟩ := ihA u hu
        rw [hendhead]
        omega
    · simp

/-- Every failure path of schedule_trip leaves the state unchanged. -/
theorem schedule_trip_false_eq (db : DB) (rid time : Int) (db' : DB)
    (h : schedule_trip db rid time = some (false, db')) : db' = db := by
  unfold schedule_trip at h
  repeat' split at h
  all_goals simp_all
  all_goals (repeat' split at h)
  all_goals simp_all

/-- Inversion of a successful schedule_trip call. -/
theorem schedule_trip_success_inv (db : DB) (rid time : Int) (db' : DB)
    (h : schedule_trip db rid time = some (true, db')) :
    ∃ r bt e1 e2 fid,
      db.routes.find? (fun s => decide (s.rid = rid)) = some r ∧
      dayOf time * 1440 + 480 ≤ time ∧ time ≤ dayOf time * 1440 + 960 ∧
      time + 12 * (r.length : Int) ≤ dayOf time * 1440 + 960 ∧
      (sortLe leTruck (candTrucks db rid time (time + 12 * (r.length : Int)))).head? = some bt ∧
      pickPairST (sortLe leERow (availERows db time (time + 12 * (r.length : Int)))) bt.trucktype
        = some (some (e1, e2)) ∧
      db' = { db with trips := db.trips ++ [mkTrip rid bt.tid time e1 e2 fid] } := by
  unfold schedule_trip at h
  simp only [] at h
  repeat' split at h
  all_goals try (simp only [Option.some.injEq, Prod.mk.injEq, reduceCtorEq, false_and,
    eq_self_iff_true, true_and] at h)
  exact ⟨_, _, _, _, _, by assumption, by omega, by omega, by omega, by assumption,
    by assumption, h.symm⟩

/-- Inversion of schedule_trips: either unchanged, or the packed batch. -/
theorem schedule_trips_inv (db : DB) (tid date : Int) (n : Nat) (db' : DB)
    (h : schedule_trips db tid date = (n, db')) :
    db' = db ∨
      ∃ tr tt e1 e2 fid,
        db.trucks.find? (fun t => decide (t.tid = tid)) = some tr ∧
        db.trucktypes.find? (fun x => decide (x.trucktype = tr.trucktype)) = some tt ∧
        pickPair (availDriverRows db date) tr.trucktype = some (e1, e2) ∧
        bestFacility db tt.wastetype = some fid ∧
        db' = { db with trips := db.trips ++
          (tripsLoop tid e1 e2 fid (date * 1440 + 960)
            (avalRoutePairs db tt.wastetype date) (date * 1440 + 480)).2 } := by
  unfold schedule_trips at h
  simp only [] at h
  repeat' split at h
  all_goals try (left; simp only [Prod.mk.injEq] at h; exact h.2.symm)
  right
  simp only [Prod.mk.injEq] at h
  exact ⟨_, _, _, _, _, by assumption, by assumption, by assumption, by assumption, h.2.symm⟩
/-- Unfolding the resource-sharing test into its five cases. -/
theorem sharesResource_cases (t u : Trip) (h : sharesResource t u = true) :
    t.tid = u.tid ∨ t.eid1 = u.eid1 ∨ t.eid1 = u.eid2 ∨ t.eid2 = u.eid1 ∨ t.eid2 = u.eid2 := by
  unfold sharesResource at h
  simp only [Bool.or_eq_true, decide_eq_true_eq] at h
  tauto

/-- schedule_trip preserves the 30-minute separation invariant when
every trip references an existing route. -/
theorem schedule_trip_preserves_sep (db : DB) (rid time : Int) (b : Bool) (db' : DB)
    (hfk : ridsResolve db) (h : schedule_trip db rid time = some (b, db'))
    (hinv : sepInv db = true) : sepInv db' = true := by
  cases b
  · rw [schedule_trip_false_eq db rid time db' h]; exact hinv
  · obtain ⟨r, bt, e1, e2, fid, hfind, h8, h16a, h16b, hbt, hpp, hdb⟩ :=
      schedule_trip_success_inv db rid time db' h
    subst hdb
    set tend := time + 12 * (r.length : Int) with htend
    have htreL : time ≤ tend := by
      have : (0:Int) ≤ 12 * (r.length : Int) := by positivity
      omega
    have hbtmem : bt ∈ candTrucks db rid time tend := head?_mem_sortLe _ _ _ hbt
    have hbtex : truckExcluded db time tend bt.tid = false := by
      unfold candTrucks at hbtmem
      rw [List.mem_filter] at hbtmem
      have := (List.mem_filter.mp hbtmem.1).2
      simpa using this
    obtain ⟨hr1, hr2⟩ := pickPairST_mem _ _ _ _ hpp
    obtain ⟨row1, hrow1, hrow1e⟩ := hr1
    obtain ⟨row2, hrow2, hrow2e⟩ := hr2
    rw [mem_sortLe] at hrow1 hrow2
    have hex1 : empExcluded db time tend e1 = false := by
      rw [← hrow1e]; exact availERows_not_excluded db time tend row1 hrow1
    have hex2 : empExcluded db time tend e2 = false := by
      rw [← hrow2e]; exact availERows_not_excluded db time tend row2 hrow2
    have hntend : tripEndT db.routes (mkTrip rid bt.tid time e1 e2 fid) = tend := by
      show time + 12 * (lenOf db.routes rid : Int) = tend
      unfold lenOf
      rw [hfind]
    unfold sepInv at hinv ⊢
    show pairsOK (fun t u => ! sharesResource t u || sepOK db.routes t u)
      (db.trips ++ [mkTrip rid bt.tid time e1 e2 fid]) = true
    rw [pairsOK_append]
    refine ⟨hinv, by simp [pairsOK], ?_⟩
    intro t ht u hu
    simp only [List.mem_singleton] at hu
    subst hu
    rw [Bool.or_eq_true]
    by_cases hsh : sharesResource t (mkTrip rid bt.tid time e1 e2 fid) = true
    case neg => left; simp [hsh]
    right
    have key : ∀ (v : Int), (v = e1 ∨ v = e2) → (t.eid1 = v ∨ t.eid2 = v) →
        notAvalOverlap db.routes time tend t = false := by
      intro v hv hor
      rcases hv with hv | hv
      · rw [hv] at hor
        exact empExcluded_false_notAval db time tend e1 hex1 t ht hor
      · rw [hv] at hor
        exact empExcluded_false_notAval db time tend e2 hex2 t ht hor
    have hno : notAvalOverlap db.routes time tend t = false := by
      rcases sharesResource_cases t _ hsh with h1 | h1 | h1 | h1 | h1
      · exact truckExcluded_false_notAval db time tend bt.tid hbtex t ht h1
      · exact key (max e1 e2) (max_choice e1 e2) (Or.inl h1)
      · exact key (min e1 e2) (min_choice e1 e2) (Or.inl h1)
      · exact key (max e1 e2) (max_choice e1 e2) (Or.inr h1)
      · exact key (min e1 e2) (min_choice e1 e2) (Or.inr h1)
    have hsep := sep_prop_of_not_overlap db.routes time tend t htreL (hfk t ht) hno
    unfold sepOK
    rw [hntend]
    rcases not_and_or.mp hsep with hna | hnb
    · simp [hna]
    · simp [mkTrip, hnb]

/-- schedule_trips preserves the separation invariant when rids are a
key, existing trips are confined to working hours, and the truck has no
trip on the date. -/
theorem schedule_trips_preserves_sep (db : DB) (tid date : Int) (n : Nat) (db' : DB)
    (hu : ridUnique db) (hwh : whConfined db) (hnt : noTripOnDate db tid date)
    (h : schedule_trips db tid date = (n, db')) (hinv : sepInv db = true) :
    sepInv db' = true := by
  rcases schedule_trips_inv db tid date n db' h with heq |
    ⟨tr, tt, e1, e2, fid, htr, htt, hpp, hfac, hdb⟩
  · rw [heq]; exact hinv
  · subst hdb
    set pairs := avalRoutePairs db tt.wastetype date with hpairsdef
    set start0 := date * 1440 + 480 with hstart0
    set off := date * 1440 + 960 with hoff
    have HL : ∀ p ∈ pairs, lenOf db.routes p.1 = p.2 := by
      intro p hp
      obtain ⟨r, hr, hrid, hlen⟩ := avalRoutePairs_mem db tt.wastetype date p hp
      rw [← hrid, lenOf_eq_of_unique db.routes hu r hr, hlen]
    obtain ⟨ihA, ihB⟩ := tripsLoop_spec db.routes tid e1 e2 fid off pairs start0 HL
    obtain ⟨hr1, hr2⟩ := pickPair_mem _ _ _ _ hpp
    obtain ⟨row1, hrow1, hrow1e⟩ := hr1
    obtain ⟨row2, hrow2, hrow2e⟩ := hr2
    have hfree1 := availDriverRows_free db date row1 hrow1
    have hfree2 := availDriverRows_free db date row2 hrow2
    unfold sepInv at hinv ⊢
    show pairsOK (fun t u => ! sharesResource t u || sepOK db.routes t u)
      (db.trips ++ (tripsLoop tid e1 e2 fid off pairs start0).2) = true
    rw [pairsOK_append]
    refine ⟨hinv, ?_, ?_⟩
    · apply pairsOK_of_pairwise _ (fun t u => tripEndT db.routes t + 30 ≤ u.ttime) _ ihB
      intro x y hxy
      rw [Bool.or_eq_true]
      right
      unfold sepOK
      have : ¬(y.ttime < tripEndT db.routes x + 30) := by omega
      simp [this]
    · intro t ht u hu
      obtain ⟨hutid, hue1, hue2, hustart, huend, hule⟩ := ihA u hu
      rw [Bool.or_eq_true]
      by_cases hsh : sharesResource t u = true
      case neg => left; simp [hsh]
      right
      have key : ∀ (v : Int), (v = e1 ∨ v = e2) → (t.eid1 = v ∨ t.eid2 = v) →
          dayOf t.ttime ≠ date := by
        intro v hv hor
        rcases hv with hv | hv
        · rw [hv, ← hrow1e] at hor; exact hfree1 t ht hor
        · rw [hv, ← hrow2e] at hor; exact hfree2 t ht hor
      have hday : dayOf t.ttime ≠ date := by
        rcases sharesResource_cases t u hsh with h1 | h1 | h1 | h1 | h1
        · exact hnt t ht (h1.trans hutid)
        · exact key (max e1 e2) (max_choice e1 e2) (Or.inl (h1.trans hue1))
        · exact key (min e1 e2) (min_choice e1 e2) (Or.inl (h1.trans hue2))
        · exact key (max e1 e2) (max_choice e1 e2) (Or.inr (h1.trans hue1))
        · exact key (min e1 e2) (min_choice e1 e2) (Or.inr (h1.trans hue2))
      obtain ⟨hwt1, hwt2⟩ := hwh t ht
      have htle : t.ttime ≤ tripEndT db.routes t := by
        unfold tripEndT
        have : (0:Int) ≤ 12 * (lenOf db.routes t.rid : Int) := by positivity
        omega
      unfold sepOK
      have hnot : ¬(t.ttime < tripEndT db.routes u + 30 ∧ u.ttime < tripEndT db.routes t + 30) := by
        intro hcon
        omega
      rcases not_and_or.mp hnot with hna | hnb
      · simp [hna]
      · simp [hnb]
/-- C4 (amended): the invariant that any two trips sharing a truck or a
driver are separated by at least 30 minutes (one starts no earlier than
30 minutes after the other ends) is preserved by schedule_trip whenever
every trip references an existing route, and by schedule_trips whenever
additionally route ids are a key, existing trips lie within the working
hours of their day, and the truck has no committed trip on the given
date; the counterexample shows both the claimed both-buffered window
form of the invariant and the no-proviso claim for schedule_trips fail. -/
theorem c4_separation_preserved :
    (∀ (db : DB) (rid time : Int) (res : Bool × DB),
        ridsResolve db → schedule_trip db rid time = some res →
          sepInv db = true → sepInv res.2 = true) ∧
      (∀ (db : DB) (tid date : Int) (res : Nat × DB),
        ridUnique db → whConfined db → noTripOnDate db tid date →
          schedule_trips db tid date = res → sepInv db = true → sepInv res.2 = true) := by
  constructor
  · rintro db rid time ⟨b, db'⟩ hfk h hinv
    exact schedule_trip_preserves_sep db rid time b db' hfk h hinv
  · rintro db tid date ⟨n, db'⟩ hu hwh hnt h hinv
    exact schedule_trips_preserves_sep db tid date n db' hu hwh hnt h hinv

/-- Witness for C4 on the concrete two-route state. -/
theorem c4_witness : sepInv twoRouteRes = true :=
  c4_separation_preserved.2 twoRouteDB 1 0 (2, twoRouteRes)
    (by unfold ridUnique; decide) (by unfold whConfined; decide)
    (by unfold noTripOnDate; decide) (by decide) (by decide)

/-- C7 (amended): every trip committed by schedule_trip starts at or
after 08:00 of its day and its computed end is at most 16:00 of that day
(so the start is at most 16:00, and before 16:00 whenever the route
length is positive); every trip committed by schedule_trips lies on the
given date, starts at or after 08:00 and ends strictly before 16:00. -/
theorem c7_working_hours_amended :
    (∀ (db : DB) (rid time : Int) (db' : DB),
        schedule_trip db rid time = some (true, db') →
          ∀ t ∈ db'.trips, t ∈ db.trips ∨
            (dayOf t.ttime * 1440 + 480 ≤ t.ttime ∧
              tripEndT db.routes t ≤ dayOf t.ttime * 1440 + 960)) ∧
      (∀ (db : DB) (tid date : Int) (res : Nat × DB),
        ridUnique db → schedule_trips db tid date = res →
          ∀ t ∈ res.2.trips, t ∈ db.trips ∨
            (dayOf t.ttime = date ∧ dayOf t.ttime * 1440 + 480 ≤ t.ttime ∧
              tripEndT db.routes t < dayOf t.ttime * 1440 + 960)) := by
  constructor
  · intro db rid time db' h t ht
    obtain ⟨r, bt, e1, e2, fid, hfind, h8, h16a, h16b, hbt, hpp, hdb⟩ :=
      schedule_trip_success_inv db rid time db' h
    subst hdb
    simp only [List.mem_append, List.mem_singleton] at ht
    rcases ht with ht | rfl
    · exact Or.inl ht
    · right
      have hntend : tripEndT db.routes (mkTrip rid bt.tid time e1 e2 fid)
          = time + 12 * (r.length : Int) := by
        show time + 12 * (lenOf db.routes rid : Int) = _
        unfold lenOf
        rw [hfind]
      constructor
      · exact h8
      · rw [hntend]
        show time + 12 * (r.length : Int) ≤ dayOf time * 1440 + 960
        exact h16b
  · rintro db tid date ⟨n, db'⟩ hu h t ht
    rcases schedule_trips_inv db tid date n db' h with heq |
      ⟨tr, tt, e1, e2, fid, htr, htt, hpp, hfac, hdb⟩
    · rw [heq] at ht
      exact Or.inl ht
    · subst hdb
      simp only [List.mem_append] at ht
      rcases ht with ht | ht
      · exact Or.inl ht
      · right
        have HL : ∀ p ∈ avalRoutePairs db tt.wastetype date, lenOf db.routes p.1 = p.2 := by
          intro p hp
          obtain ⟨r, hr, hrid, hlen⟩ := avalRoutePairs_mem db tt.wastetype date p hp
          rw [← hrid, lenOf_eq_of_unique db.routes hu r hr, hlen]
        obtain ⟨ihA, _⟩ := tripsLoop_spec db.routes tid e1 e2 fid (date * 1440 + 960)
          (avalRoutePairs db tt.wastetype date) (date * 1440 + 480) HL
        obtain ⟨_, _, _, hstart, hend, hle⟩ := ihA t ht
        have hday : dayOf t.ttime = date := by
          unfold dayOf
          omega
        refine ⟨hday, ?_, ?_⟩ <;> rw [hday]
        · omega
        · omega

/-- Witness for C7 on the concrete zero-length-route state. -/
theorem c7_witness :
    (⟨1, 1, 960, none, 2, 1, 1⟩ : Trip) ∈ zeroLenDB.trips ∨
      (dayOf (960 : Int) * 1440 + 480 ≤ (960 : Int) ∧
        tripEndT zeroLenDB.routes ⟨1, 1, 960, none, 2, 1, 1⟩ ≤ dayOf (960 : Int) * 1440 + 960) :=
  c7_working_hours_amended.1 zeroLenDB 1 960 zeroLenRes (by decide)
    ⟨1, 1, 960, none, 2, 1, 1⟩ (by decide)

end WW
